import Mathlib

/-!
Verification development for the `react_hooks` repository: a collection of
git pre-commit hook scripts (gitignore auditor, lowercase auditor, build
runner, git-status reminder) and installer glue.

The JavaScript sources are embedded shallowly:

* File contents are modelled by their list of newline-separated lines
  (`List String`); a content string `S` corresponds to the unique line list
  `L` of newline-free strings with `S = String.intercalate "\n" L`.
  Appending a chunk that starts with a newline to a file corresponds to
  appending the chunk's tail lines to the file's line list.
* JavaScript string primitives (`startsWith`, `endsWith`, `includes`,
  `trim`, `toLowerCase`) are modelled as executable functions on
  `List Char` / `String`; `toLowerCase` performs the ASCII mapping.
* External effects (the staged-file list from git, file reads, regex
  extraction of import specifiers, build-process outcomes, network fetch)
  are environment parameters supplied to the embedded functions.
* `process.exit` codes are returned as `Nat` results.
-/

namespace ReactHooks

/-! ## JavaScript string primitives -/

/-- JS `String.prototype.startsWith`: the second string is a prefix of the
first. -/
def jsStartsWith (s pre : String) : Bool :=
  pre.data.isPrefixOf s.data

/-- JS `String.prototype.endsWith`: the second string is a suffix of the
first. -/
def jsEndsWith (s suf : String) : Bool :=
  suf.data.isSuffixOf s.data

/-- JS `String.prototype.includes`: the second string occurs as a contiguous
substring of the first. -/
def jsIncludes (s sub : String) : Bool :=
  decide (sub.data <:+: s.data)

/-- JS `String.prototype.trim`: drop whitespace from both ends. -/
def jsTrim (s : String) : String :=
  ⟨((s.data.dropWhile Char.isWhitespace).reverse.dropWhile Char.isWhitespace).reverse⟩

/-- JS `String.prototype.toLowerCase` (ASCII range, which is all the sources
rely on). -/
def jsToLower (s : String) : String :=
  ⟨s.data.map Char.toLower⟩

/-- Node `path.basename`: the last path component, ignoring trailing
slashes. -/
def basename (p : String) : String :=
  ⟨((p.data.reverse.dropWhile (· = '/')).takeWhile (· ≠ '/')).reverse⟩

/-- Node `path.extname`: the suffix of the basename from its last dot, or
`""` when the basename has no dot or only a leading dot. -/
def extname (p : String) : String :=
  let b := (basename p).data
  let tail := b.reverse.takeWhile (· ≠ '.')
  if tail.length = b.length then ""
  else if tail.length + 1 = b.length then ""
  else ⟨'.' :: tail.reverse⟩

/-! ## Gitignore auditor (`scripts/check-gitignore.js`)

The repository ships two variants of the gitignore check.  The first
(`checkAndUpdateGitignore`) appends the missing patterns to `.gitignore`;
the second (configuration-driven) only reports patterns that are missing,
where a pattern also counts as present when some line extends it with a
`/`.  Both are embedded below over the line-list representation of the
ignore file; `none` stands for an absent `.gitignore`. -/

/-- Essential pattern list of the appending variant
(`essentialPatterns` in the script defining `checkAndUpdateGitignore`). -/
def essentialPatterns : List String :=
  ["node_modules/", "npm-debug.log", "yarn-debug.log*", "yarn-error.log*",
   ".pnpm-debug.log*",
   ".env", ".env.local", ".env.development.local", ".env.test.local",
   ".env.production.local", "*.pem", ".env*.local",
   ".idea/", ".vscode/", "*.sublime-project", "*.sublime-workspace",
   ".DS_Store",
   "/build", "/dist", "/.next/", "/out/", "/.nuxt",
   "/coverage", "/.nyc_output",
   "logs", "*.log",
   ".npm", ".eslintcache", ".stylelintcache", ".cache/", ".parcel-cache",
   ".DS_Store", "Thumbs.db"]

/-- Essential pattern list of the reporting variant. -/
def essentialPatternsCheck : List String :=
  ["node_modules", ".env", ".env.local", ".env.development.local",
   ".env.test.local", ".env.production.local", "npm-debug.log*",
   "yarn-debug.log*", "yarn-error.log*", ".DS_Store", "dist", "build",
   "coverage"]

/-- Header comment line the appending variant writes above the patterns it
adds. -/
def headerLine : String := "# Added automatically by git hooks"

/-- The missing-pattern computation of the appending variant:
`essentialPatterns.filter(pattern => !existingPatterns.some(existing => existing === pattern))`
where `existingPatterns` are the trimmed lines of the current file. -/
def gitignoreMissing (patterns existingPatterns : List String) : List String :=
  patterns.filter (fun p => !(existingPatterns.contains p))

/-- The `existingPatterns` read in `checkAndUpdateGitignore`: the trimmed
lines of the file when it exists, `[]` when it does not. -/
def existingOf : Option (List String) → List String
  | none => []
  | some lines => lines.map jsTrim

/-- The separator lines placed before the appended patterns: a blank line
from the chunk's leading newline, preceded by one more blank line when the
current content is nonempty (not the empty string, whose line list is `[""]`) and does
not already end in a newline (its last line is nonempty). -/
def sepOf (lines : List String) : List String :=
  if lines ≠ [""] && lines.getLastD "" ≠ "" then ["", headerLine]
  else [headerLine]

/-- `checkAndUpdateGitignore`, over the line-list representation.  When the
file is absent (`none`) its content is treated as empty (line list `[""]`)
with no existing patterns; when patterns are missing, the appended chunk
consists of the separator, the missing patterns, and a final newline. -/
def gitignoreAudit (patterns : List String) (file : Option (List String)) :
    Option (List String) :=
  if (gitignoreMissing patterns (existingOf file)).isEmpty then file
  else
    some (file.getD [""] ++ sepOf (file.getD [""]) ++
      gitignoreMissing patterns (existingOf file) ++ [""])

/-- The per-pattern test of the reporting variant:
`trimmedLine === pattern || trimmedLine.startsWith(pattern + '/')`. -/
def patternFound (lines : List String) (p : String) : Bool :=
  lines.any (fun line => jsTrim line == p || jsStartsWith (jsTrim line) (p ++ "/"))

/-- The missing-pattern list of the reporting variant. -/
def gitignoreMissingReport (patterns lines : List String) : List String :=
  patterns.filter (fun p => !(patternFound lines p))

/-! ## Lowercase auditor (`scripts/check-lowercase.js`)

Both variants (blocking and warning-only) compute identical buckets; only
the final exit differs.  Staged files come from
`git diff --cached --name-only --diff-filter=d` (non-deleted files) and
are an environment parameter, as are file reads and the regex extraction
of import specifiers. -/

/-- The `codeFileExtensions` list checked for import statements. -/
def codeFileExtensions : List String :=
  [".js", ".jsx", ".ts", ".tsx", ".vue", ".svelte",
   ".mjs", ".cjs", ".mts", ".cts"]

/-- The skip condition: dependency/build directories and dot files. -/
def skipFile (file : String) : Bool :=
  jsIncludes file "node_modules/" || jsIncludes file "/build/" ||
  jsIncludes file "/dist/" || jsStartsWith (basename file) "."

/-- Negation of the per-specifier skip condition of the import loop:
package imports, already-lowercase relative imports, and URL imports are
skipped; everything else is flagged. -/
def flagImport (importPath : String) : Bool :=
  !(!jsStartsWith importPath "." || jsToLower importPath == importPath ||
    jsStartsWith importPath "http://" || jsStartsWith importPath "https://")

/-- The `fileNames` bucket: staged files, not skipped, whose basename
differs from its lowercase form. -/
def lowercaseFileNames (stagedFiles : List String) : List String :=
  stagedFiles.filter (fun file =>
    !skipFile file && basename file != jsToLower (basename file))

/-- The `imports` bucket: for each staged, non-skipped file with a code
extension, the flagged specifiers paired with the file.  `readFile`
models `fs.readFileSync` (`none` is the logged-and-skipped read error)
and `extractImports` models the `matchAll` loops over the six import
regexes, listing the captured specifiers in order. -/
def lowercaseImports (extractImports : String → List String)
    (readFile : String → Option String) (stagedFiles : List String) :
    List (String × String) :=
  stagedFiles.flatMap (fun file =>
    if !skipFile file &&
        codeFileExtensions.contains (jsToLower (extname file)) then
      match readFile file with
      | some content =>
        ((extractImports content).filter flagImport).map (fun s => (file, s))
      | none => []
    else [])

/-- `hasErrors` / `hasWarnings`: some bucket is nonempty. -/
def lowercaseHasErrors (extractImports : String → List String)
    (readFile : String → Option String) (stagedFiles : List String) : Bool :=
  !(lowercaseFileNames stagedFiles).isEmpty ||
  !(lowercaseImports extractImports readFile stagedFiles).isEmpty

/-- Exit code of the blocking variant: `process.exit(1)` when errors were
found, normal termination otherwise. -/
def lowercaseExitEnforcing (extractImports : String → List String)
    (readFile : String → Option String) (stagedFiles : List String) : Nat :=
  if lowercaseHasErrors extractImports readFile stagedFiles then 1 else 0

/-- Exit code of the warning-only variant: it prints its findings but
always terminates normally. -/
def lowercaseExitWarning (_extractImports : String → List String)
    (_readFile : String → Option String) (_stagedFiles : List String) : Nat :=
  0

/-! ## Configuration loading (`hooks-config.js`)

Each configurable script starts from its own hard-coded default object
and, when a configuration file is present and loads, replaces the object
wholesale (`config = require(configPath)`).  `none` for the file covers
both absence and a load error (the catch falls back to the default). -/

/-- One hook's entry in `hooks-config.js`; absent fields are `none`.
`hoursThreshold` flattens the `settings.hoursThreshold` field used by the
git reminder. -/
structure HookEntry where
  enabled : Option Bool
  enforce : Option Bool
  hoursThreshold : Option Nat
deriving DecidableEq

/-- The configuration object shape: one optional entry per hook. -/
structure HooksConfig where
  gitignore : Option HookEntry
  build : Option HookEntry
  lowercase : Option HookEntry
  gitReminder : Option HookEntry
deriving DecidableEq

/-- Built-in default of `check-gitignore.js` (configurable variant). -/
def defaultGitignoreHooksConfig : HooksConfig :=
  ⟨some ⟨some true, some true, none⟩, none, none, none⟩

/-- Built-in default of the build-verification script. -/
def defaultBuildHooksConfig : HooksConfig :=
  ⟨none, some ⟨some true, some true, none⟩, none, none⟩

/-- Built-in default of `git-reminder.js`. -/
def defaultReminderHooksConfig : HooksConfig :=
  ⟨none, none, none, some ⟨some true, some false, some 4⟩⟩

/-- Config resolution: the loaded file replaces the default wholesale. -/
def loadConfig (default : HooksConfig) (file : Option HooksConfig) :
    HooksConfig :=
  file.getD default

/-- The disabled test `!config.hook || config.hook.enabled === false`. -/
def hookDisabled : Option HookEntry → Bool
  | none => true
  | some e => e.enabled == some false

/-- The enforcement test `config.hook && config.hook.enforce === true`. -/
def hookEnforces : Option HookEntry → Bool
  | none => false
  | some e => e.enforce == some true

/-- Whether `check-gitignore.js` performs its check for a given config
file. -/
def gitignoreHookRuns (file : Option HooksConfig) : Bool :=
  !hookDisabled (loadConfig defaultGitignoreHooksConfig file).gitignore

/-- Whether `check-gitignore.js` enforces (blocks) for a given config
file. -/
def gitignoreHookEnforces (file : Option HooksConfig) : Bool :=
  hookEnforces (loadConfig defaultGitignoreHooksConfig file).gitignore

/-- Whether the build-verification script performs its check. -/
def buildHookRuns (file : Option HooksConfig) : Bool :=
  !hookDisabled (loadConfig defaultBuildHooksConfig file).build

/-- Whether the build-verification script enforces. -/
def buildHookEnforces (file : Option HooksConfig) : Bool :=
  hookEnforces (loadConfig defaultBuildHooksConfig file).build

/-- Whether `git-reminder.js` performs its check. -/
def reminderHookRuns (file : Option HooksConfig) : Bool :=
  !hookDisabled (loadConfig defaultReminderHooksConfig file).gitReminder

/-- Whether `git-reminder.js` enforces. -/
def reminderHookEnforces (file : Option HooksConfig) : Bool :=
  hookEnforces (loadConfig defaultReminderHooksConfig file).gitReminder

/-! ## Manifest files (`package.json`) -/

/-- A manifest: the `scripts` mapping (an insertion-ordered object, keys
unique, values npm command strings), the `workspaces` field, and the
remaining top-level entries, which the embedded scripts never touch and
whose values are kept abstract. -/
structure PackageJson where
  scripts : Option (List (String × String))
  workspaces : Option (List String)
  rest : List (String × String)
deriving DecidableEq

/-- JS truthiness of `packageJson.scripts && packageJson.scripts[key]`:
the mapping exists and holds a nonempty command under `key`. -/
def hasTruthyScript (m : PackageJson) (key : String) : Bool :=
  match m.scripts with
  | none => false
  | some s => ((s.lookup key).getD "") != ""

/-- JS property assignment `scripts[key] = value` on the ordered object:
replace in place when the key is present, append otherwise. -/
def setScript (scripts : List (String × String)) (key value : String) :
    List (String × String) :=
  if scripts.any (fun kv => kv.1 == key) then
    scripts.map (fun kv => if kv.1 == key then (key, value) else kv)
  else scripts ++ [(key, value)]

/-- Step 1 of `scripts/update-package-json.js`:
set the prepare script to husky install. -/
def withPrepare (s : List (String × String)) : List (String × String) :=
  setScript s "prepare" "husky install"

/-- Step 2: `if (!packageJson.scripts['build:dev']) { ... }` — set the
script when its current value is falsy (absent or the empty string). -/
def withBuildDev (s : List (String × String)) : List (String × String) :=
  if ((s.lookup "build:dev").getD "") != "" then s
  else setScript s "build:dev" "node scripts/build-react-apps.js"

/-- Step 3: likewise for `check-gitignore`. -/
def withCheckGitignore (s : List (String × String)) :
    List (String × String) :=
  if ((s.lookup "check-gitignore").getD "") != "" then s
  else setScript s "check-gitignore" "node scripts/check-gitignore.js"

/-- `scripts/update-package-json.js`: create `scripts` if missing, set
`prepare`, then `build:dev` and `check-gitignore` when falsy, and write
the manifest back with all other top-level keys untouched. -/
def updatePackageJson (m : PackageJson) : PackageJson :=
  { m with
    scripts := some (withCheckGitignore (withBuildDev (withPrepare
      (m.scripts.getD [])))) }

/-! ## Build runner (configurable variant) -/

/-- The `\.(js|jsx|ts|tsx|vue|svelte)$` alternatives. -/
def jsSourceExtensions : List String :=
  [".js", ".jsx", ".ts", ".tsx", ".vue", ".svelte"]

/-- `hasJsChanges`: some staged file matches the source-extension regex
and is not under `node_modules/`. -/
def hasJsChanges (stagedFiles : List String) : Bool :=
  stagedFiles.any (fun file =>
    jsSourceExtensions.any (fun ext => jsEndsWith file ext) &&
    !jsIncludes file "node_modules/")

/-- `isAffected`: some staged file starts with the relative path of the app or
mentions a shared/common path. -/
def isAffected (stagedFiles : List String) (appRelativePath : String) : Bool :=
  stagedFiles.any (fun file =>
    jsStartsWith file appRelativePath || jsIncludes file "shared" ||
    jsIncludes file "common")

/-- Environment of one build-runner invocation.  `appsToCheck` is the
package-directory list produced by `npx lerna list` or the workspace
pattern `find`; `manifest` is the per-directory `package.json`
(`existsSync` plus parse); `relPath` is `path.relative(process.cwd(), ·)`;
`buildOk`/`rootBuildOk` are the outcomes of the external
`npm run build` calls. -/
structure BuildEnv where
  configFile : Option HooksConfig
  stagedFiles : List String
  lernaConfig : Bool
  rootManifest : Option PackageJson
  appsToCheck : List String
  manifest : String → Option PackageJson
  relPath : String → String
  buildOk : String → Bool
  rootBuildOk : Bool

/-- Monorepo detection: `lerna.json` exists, or the root `package.json`
exists and its `workspaces` field is truthy (any object or array). -/
def buildIsMonorepo (env : BuildEnv) : Bool :=
  env.lernaConfig ||
  (match env.rootManifest with
   | some m => m.workspaces.isSome
   | none => false)

/-- `appsToBuild`: the checked apps whose manifest exists, has a build
script, and which the staged files affect; filtering preserves discovery
order. -/
def appsToBuild (env : BuildEnv) : List String :=
  env.appsToCheck.filter (fun appPath =>
    match env.manifest appPath with
    | some m =>
      hasTruthyScript m "build" &&
      isAffected env.stagedFiles (env.relPath appPath)
    | none => false)

/-- The sequential monorepo build loop: build each app in order; on the
first failure exit 1 when enforcing, or return normally (exit 0) when
not; the second component lists the apps whose build was invoked. -/
def runBuildLoop (buildOk : String → Bool) (enforce : Bool) :
    List String → Nat × List String
  | [] => (0, [])
  | appPath :: rest =>
    if buildOk appPath then
      let r := runBuildLoop buildOk enforce rest
      (r.1, appPath :: r.2)
    else ((if enforce then 1 else 0), [appPath])

/-- The build-verification script: exit code and the directories where a
build was invoked (`"."` stands for the single-app root build). -/
def buildRunner (env : BuildEnv) : Nat × List String :=
  let config := loadConfig defaultBuildHooksConfig env.configFile
  if hookDisabled config.build then (0, [])
  else if !hasJsChanges env.stagedFiles then (0, [])
  else if buildIsMonorepo env then
    if (appsToBuild env).isEmpty then (0, [])
    else runBuildLoop env.buildOk (hookEnforces config.build) (appsToBuild env)
  else
    match env.rootManifest with
    | some m =>
      if hasTruthyScript m "build" then
        if env.rootBuildOk then (0, ["."])
        else if hookEnforces config.build then (1, ["."])
        else (0, ["."])
      else (0, [])
    | none => (0, [])

/-- Workspace example for the selection property: package `a` is touched
by the staged files, package `b` is not; both have build scripts. -/
def sampleMonorepoEnv : BuildEnv where
  configFile := none
  stagedFiles := ["a/src/index.js"]
  lernaConfig := true
  rootManifest := none
  appsToCheck := ["a", "b"]
  manifest := fun d =>
    if d == "a" then some ⟨some [("build", "vite build")], none, []⟩
    else if d == "b" then some ⟨some [("build", "vite build")], none, []⟩
    else none
  relPath := fun d => d
  buildOk := fun _ => true
  rootBuildOk := true

/-- Example with no staged JS/TS changes but a root build script. -/
def sampleDocsEnv : BuildEnv where
  configFile := none
  stagedFiles := ["README.md", "docs/guide.md"]
  lernaConfig := false
  rootManifest := some ⟨some [("build", "react-scripts build")], none, []⟩
  appsToCheck := []
  manifest := fun _ => none
  relPath := fun d => d
  buildOk := fun _ => true
  rootBuildOk := true

/-! ## Git-status reminder (`scripts/git-reminder.js`) -/

/-- Environment of one reminder invocation: the trimmed
`git status --porcelain` output, the last commit time and current time in
milliseconds, and the upstream-divergence query result (`none` models the
caught failure of `git fetch` / `git rev-list`, e.g. no upstream or a
network error). -/
structure ReminderEnv where
  configFile : Option HooksConfig
  insideGitRepo : Bool
  statusChanges : String
  lastCommitTime : Option Nat
  now : Nat
  fetchBehind : Option Nat

/-- Findings and exit code of one reminder run. -/
structure ReminderResult where
  dirty : Bool
  stale : Bool
  behindBy : Option Nat
  exitCode : Nat
deriving DecidableEq

/-- Hours since the last commit in tenths, as `((now-last)/3600000
hours).toFixed(1)` computes it on exact rationals (round half up; binary
floating-point rounding noise is not modelled). -/
def tenthsOfHours (ms : Nat) : Nat :=
  (ms * 20 + 3600000) / 7200000

/-- `config.gitReminder.settings?.hoursThreshold || 4`: a missing (or
zero, hence falsy) threshold falls back to 4. -/
def reminderThreshold (e : HookEntry) : Nat :=
  match e.hoursThreshold with
  | some t => if t = 0 then 4 else t
  | none => 4

/-- `git-reminder.js`: the three findings and the exit code.  The string
comparison `hoursAgo > hoursThreshold` coerces the `toFixed(1)` string
back to a number, so staleness is `tenths > 10 * threshold`.  The
divergence sub-check runs only when a last commit exists, and its
failures are swallowed by the surrounding catch. -/
def gitReminder (env : ReminderEnv) : ReminderResult :=
  let config := loadConfig defaultReminderHooksConfig env.configFile
  match config.gitReminder with
  | none => ⟨false, false, none, 0⟩
  | some entry =>
    if entry.enabled == some false then ⟨false, false, none, 0⟩
    else if !env.insideGitRepo then ⟨false, false, none, 0⟩
    else
      let shouldEnforce := entry.enforce == some true
      let dirty := env.statusChanges != ""
      let stale := match env.lastCommitTime with
        | some t =>
          decide (reminderThreshold entry * 10 < tenthsOfHours (env.now - t))
        | none => false
      let behindBy := match env.lastCommitTime with
        | some _ =>
          match env.fetchBehind with
          | some n => if 0 < n then some n else none
          | none => none
        | none => none
      let hasIssues := shouldEnforce && (dirty || stale || behindBy.isSome)
      ⟨dirty, stale, behindBy, if shouldEnforce && hasIssues then 1 else 0⟩

/-! ## Hook pipeline (`.husky` hook written by the updater)

The hook script runs `npm run check-gitignore`, `npm run check-lowercase`,
`npm run build`, `npm run git-reminder` in that order.  Modelled from the
spec for the abort behavior: the sourced husky wrapper (not part of this
repository) re-executes the hook under `sh -e`, so the first command with
a non-zero exit terminates the hook with that code (spec section 4.6);
checks that are disabled or advisory-only exit 0 and the pipeline
advances. -/

/-- The four checks of the pre-commit pipeline. -/
inductive HookCheck
  | gitignore
  | lowercase
  | build
  | gitReminder
deriving DecidableEq

/-- The fixed order in which the hook script invokes the checks. -/
def hookSequence : List HookCheck :=
  [HookCheck.gitignore, HookCheck.lowercase, HookCheck.build,
   HookCheck.gitReminder]

/-- Modelled from the spec: the husky wrapper sourced by the hook script
is not part of this repository; per spec section 4.6 it re-executes the
hook under `sh -e`, so a command list stops at the first non-zero exit,
yielding that exit code and the executed command prefix. -/
def runChecks (exitOf : HookCheck → Nat) : List HookCheck → Nat × List HookCheck
  | [] => (0, [])
  | c :: rest =>
    if exitOf c = 0 then
      let r := runChecks exitOf rest
      (r.1, c :: r.2)
    else (exitOf c, [c])

/-- The pre-commit pipeline over the fixed check order. -/
def runPipeline (exitOf : HookCheck → Nat) : Nat × List HookCheck :=
  runChecks exitOf hookSequence

/-! ## Theorems -/

/-- Membership in the missing list of the appending variant. -/
theorem mem_gitignoreMissing {P existing : List String} {p : String} :
    p ∈ gitignoreMissing P existing ↔ p ∈ P ∧ p ∉ existing := by
  unfold gitignoreMissing
  simp [List.contains, List.elem_iff]

/-- Core completeness of the appending audit: when every pattern is
unchanged by trimming, every pattern of `P` occurs as an exact trimmed
line of the audited file. -/
theorem gitignore_audit_exact (P : List String) (C : Option (List String))
    (hP : ∀ p ∈ P, jsTrim p = p) :
    ∀ p ∈ P, ∃ l ∈ (gitignoreAudit P C).getD [""], jsTrim l = p := by
  intro p hp
  unfold gitignoreAudit
  by_cases hm : (gitignoreMissing P (existingOf C)).isEmpty
  · rw [if_pos hm]
    rw [List.isEmpty_iff] at hm
    have hmem : p ∈ existingOf C := by
      by_contra hcon
      have := mem_gitignoreMissing.mpr ⟨hp, hcon⟩
      rw [hm] at this
      exact (List.not_mem_nil p) this
    cases C with
    | none => simp [existingOf] at hmem
    | some lines =>
      rw [show existingOf (some lines) = lines.map jsTrim from rfl] at hmem
      obtain ⟨l, hl, hlp⟩ := List.mem_map.mp hmem
      exact ⟨l, hl, hlp⟩
  · rw [if_neg hm]
    simp only [Option.getD_some]
    by_cases hmem : p ∈ existingOf C
    · cases C with
      | none => simp [existingOf] at hmem
      | some lines =>
        rw [show existingOf (some lines) = lines.map jsTrim from rfl] at hmem
        obtain ⟨l, hl, hlp⟩ := List.mem_map.mp hmem
        exact ⟨l, by simp [hl], hlp⟩
    · have hmiss := mem_gitignoreMissing.mpr ⟨hp, hmem⟩
      exact ⟨p, by simp [hmiss], hP p hp⟩

/-- Helper: a file whose trimmed lines realize every pattern of `P` exactly
has no missing patterns and the audit leaves it unchanged. -/
theorem gitignore_audit_fixed (P : List String) (L : List String)
    (h : ∀ p ∈ P, ∃ l ∈ L, jsTrim l = p) :
    gitignoreAudit P (some L) = some L := by
  unfold gitignoreAudit
  have hm : gitignoreMissing P (existingOf (some L)) = [] := by
    unfold gitignoreMissing
    rw [List.filter_eq_nil_iff]
    intro p hp
    obtain ⟨l, hl, hlp⟩ := h p hp
    simp only [Bool.not_eq_true', Bool.not_eq_false]
    exact List.elem_iff.mpr (List.mem_map.mpr ⟨l, hl, hlp⟩)
  simp [hm]

/-- Claim C1 (amended): for every pattern list `P` whose patterns are
unchanged by trimming and contain no newline (true of the built-in
`essentialPatterns`), and every initial ignore file `C` (absent treated as
empty), the audit produces a file in which every pattern appears as an
exact trimmed line (hence as an exact-or-`pattern/`-prefixed trimmed
line), re-running the audit returns the same file, and neither variant
reports any pattern missing on the result. -/
theorem gitignore_audit_ok (P : List String) (C : Option (List String))
    (hP : ∀ p ∈ P, jsTrim p = p ∧ p.data.contains '\n' = false) :
    (∀ p ∈ P, ∃ l ∈ (gitignoreAudit P C).getD [""],
        jsTrim l = p ∨ jsStartsWith (jsTrim l) (p ++ "/") = true) ∧
    gitignoreAudit P (gitignoreAudit P C) = gitignoreAudit P C ∧
    gitignoreMissing P (((gitignoreAudit P C).getD [""]).map jsTrim) = [] ∧
    gitignoreMissingReport P ((gitignoreAudit P C).getD [""]) = [] := by
  have hP' : ∀ p ∈ P, jsTrim p = p := fun p hp => (hP p hp).1
  have hexact := gitignore_audit_exact P C hP'
  refine ⟨fun p hp => ?_, ?_, ?_, ?_⟩
  · obtain ⟨l, hl, hlp⟩ := hexact p hp
    exact ⟨l, hl, Or.inl hlp⟩
  · cases hR : gitignoreAudit P C with
    | none =>
      have hPnil : P = [] := by
        unfold gitignoreAudit at hR
        split at hR
        · next hm =>
          rw [List.isEmpty_iff] at hm
          subst hR
          rw [show existingOf none = [] from rfl] at hm
          cases hp : P with
          | nil => rfl
          | cons q qs =>
            exfalso
            have : q ∈ gitignoreMissing P (existingOf none) :=
              mem_gitignoreMissing.mpr ⟨by simp [hp], by simp [existingOf]⟩
            rw [show existingOf none = [] from rfl, hm] at this
            exact (List.not_mem_nil q) this
        · exact absurd hR (by simp)
      subst hPnil
      simp [gitignoreAudit, gitignoreMissing]
    | some L' =>
      have hexact' := hexact
      rw [hR] at hexact'
      simp only [Option.getD_some] at hexact'
      exact gitignore_audit_fixed P L' hexact'
  · unfold gitignoreMissing
    rw [List.filter_eq_nil_iff]
    intro p hp
    obtain ⟨l, hl, hlp⟩ := hexact p hp
    simp only [Bool.not_eq_true', Bool.not_eq_false]
    exact List.elem_iff.mpr (List.mem_map.mpr ⟨l, hl, hlp⟩)
  · unfold gitignoreMissingReport
    rw [List.filter_eq_nil_iff]
    intro p hp
    obtain ⟨l, hl, hlp⟩ := hexact p hp
    simp only [Bool.not_eq_true', Bool.not_eq_false]
    unfold patternFound
    rw [List.any_eq_true]
    exact ⟨l, hl, by simp [hlp]⟩

/-- Witness for `gitignore_audit_ok` at the built-in pattern list and an
absent ignore file. -/
theorem gitignore_audit_ok_witness :
    (∀ p ∈ essentialPatterns, jsTrim p = p ∧ p.data.contains '\n' = false) ∧
    gitignoreAudit essentialPatterns (gitignoreAudit essentialPatterns none) =
      gitignoreAudit essentialPatterns none :=
  ⟨by decide, (gitignore_audit_ok essentialPatterns none (by decide)).2.1⟩

/-- Claim C2: a scanned import specifier is flagged iff it starts with `.`
and differs from its lowercase form; in particular `./Bar/baz` is
flagged while the package import `React` and the URL import
`https://example.com/Foo.js` are not. -/
theorem lowercase_import_flag_iff :
    (∀ s : String, flagImport s = true ↔
      jsStartsWith s "." = true ∧ jsToLower s ≠ s) ∧
    flagImport "./Bar/baz" = true ∧ flagImport "React" = false ∧
    flagImport "https://example.com/Foo.js" = false := by
  refine ⟨fun s => ?_, by decide, by decide, by decide⟩
  unfold flagImport
  cases hd : s.data with
  | nil =>
    have hdot : jsStartsWith s "." = false := by
      unfold jsStartsWith
      rw [hd]
      rfl
    simp [hdot]
  | cons c cs =>
    by_cases hc : c = '.'
    · subst hc
      have hdot : jsStartsWith s "." = true := by
        unfold jsStartsWith
        rw [hd]
        simp [List.isPrefixOf]
      have hhttp : jsStartsWith s "http://" = false := by
        unfold jsStartsWith
        rw [hd]
        simp [List.isPrefixOf]
      have hhttps : jsStartsWith s "https://" = false := by
        unfold jsStartsWith
        rw [hd]
        simp [List.isPrefixOf]
      simp [hdot, hhttp, hhttps, Bool.not_eq_true', beq_eq_false_iff_ne]
    · have hdot : jsStartsWith s "." = false := by
        unfold jsStartsWith
        rw [hd]
        simp [List.isPrefixOf, beq_eq_false_iff_ne.mpr (Ne.symm hc)]
      simp [hdot]

/-- Helper: an ASCII uppercase letter is changed by `Char.toLower`. -/
theorem toLower_ne_of_isUpper (c : Char) (h : c.isUpper = true) :
    Char.toLower c ≠ c := by
  intro heq
  unfold Char.isUpper at h
  have hb := Bool.and_eq_true _ _ |>.mp h
  have h65 : 65 ≤ c.toNat := by
    have h1 := of_decide_eq_true hb.1
    have h2 := UInt32.le_def.mp h1
    simpa using h2
  have h90 : c.toNat ≤ 90 := by
    have h1 := of_decide_eq_true hb.2
    have h2 := UInt32.le_def.mp h1
    simpa using h2
  unfold Char.toLower at heq
  rw [if_pos ⟨h65, h90⟩] at heq
  have hvalid : (c.toNat + 32).isValidChar := Or.inl (by omega)
  have hval : (Char.ofNat (c.toNat + 32)).toNat = c.toNat + 32 := by
    unfold Char.ofNat
    rw [dif_pos hvalid]
    rfl
  have hc := congrArg Char.toNat heq
  rw [hval] at hc
  omega

/-- Helper: a character list fixed by mapping `Char.toLower` fixes every
member. -/
theorem map_toLower_mem (l : List Char) (h : l.map Char.toLower = l) :
    ∀ c ∈ l, Char.toLower c = c := by
  induction l with
  | nil =>
    intro c hc
    simp at hc
  | cons a rest ih =>
    rw [List.map_cons] at h
    injection h with h1 h2
    intro c hc
    rcases List.mem_cons.mp hc with rfl | hc'
    · exact h1
    · exact ih h2 c hc'

/-- Helper: a string containing an uppercase character differs from its
lowercase form. -/
theorem jsToLower_ne_of_upper (s : String)
    (h : ∃ c ∈ s.data, c.isUpper = true) : s ≠ jsToLower s := by
  obtain ⟨c, hc, hup⟩ := h
  intro heq
  have hdata : (jsToLower s).data = s.data := (congrArg String.data heq).symm
  unfold jsToLower at hdata
  exact toLower_ne_of_isUpper c hup (map_toLower_mem s.data hdata c hc)

/-- Claim C3: a staged, non-skipped file whose basename contains an
uppercase character lands in the `fileNames` bucket; the blocking variant
then exits 1 while the warning-only variant exits 0. -/
theorem lowercase_uppercase_filename_reported
    (extractImports : String → List String)
    (readFile : String → Option String) (stagedFiles : List String)
    (file : String) (hmem : file ∈ stagedFiles)
    (hskip : skipFile file = false)
    (hupper : ∃ c ∈ (basename file).data, c.isUpper = true) :
    file ∈ lowercaseFileNames stagedFiles ∧
    lowercaseExitEnforcing extractImports readFile stagedFiles = 1 ∧
    lowercaseExitWarning extractImports readFile stagedFiles = 0 := by
  have hne : basename file ≠ jsToLower (basename file) :=
    jsToLower_ne_of_upper (basename file) hupper
  have hmemF : file ∈ lowercaseFileNames stagedFiles := by
    unfold lowercaseFileNames
    refine List.mem_filter.mpr ⟨hmem, ?_⟩
    simp [hskip, bne_iff_ne, hne]
  refine ⟨hmemF, ?_, rfl⟩
  unfold lowercaseExitEnforcing lowercaseHasErrors
  cases hE : (lowercaseFileNames stagedFiles).isEmpty with
  | false => simp [hE]
  | true =>
    rw [List.isEmpty_iff] at hE
    rw [hE] at hmemF
    exact absurd hmemF (List.not_mem_nil file)

/-- Witness for `lowercase_uppercase_filename_reported` at the staged file
`Foo.js`. -/
theorem lowercase_uppercase_filename_reported_witness :
    ("Foo.js" ∈ ["Foo.js"] ∧ skipFile "Foo.js" = false ∧
      (∃ c ∈ (basename "Foo.js").data, c.isUpper = true)) ∧
    "Foo.js" ∈ lowercaseFileNames ["Foo.js"] ∧
    lowercaseExitEnforcing (fun _ => []) (fun _ => none) ["Foo.js"] = 1 ∧
    lowercaseExitWarning (fun _ => []) (fun _ => none) ["Foo.js"] = 0 :=
  ⟨⟨by decide, by decide, by decide⟩,
   lowercase_uppercase_filename_reported (fun _ => []) (fun _ => none)
     ["Foo.js"] "Foo.js" (by decide) (by decide) (by decide)⟩

/-- Claim C10: a staged file that matches the skip condition (dot file, or
under `node_modules/`, `/build/`, or `/dist/`) produces no finding at
all: it is in neither the `fileNames` bucket nor any `imports` entry,
regardless of its name or contents. -/
theorem lowercase_skip_no_findings
    (extractImports : String → List String)
    (readFile : String → Option String) (stagedFiles : List String)
    (file : String) (hskip : skipFile file = true) :
    file ∉ lowercaseFileNames stagedFiles ∧
    ∀ pr ∈ lowercaseImports extractImports readFile stagedFiles,
      pr.1 ≠ file := by
  constructor
  · intro hmem
    have h2 := (List.mem_filter.mp hmem).2
    rw [hskip] at h2
    simp at h2
  · intro pr hpr heq
    unfold lowercaseImports at hpr
    obtain ⟨f, hf, hin⟩ := List.mem_flatMap.mp hpr
    by_cases hc : (!skipFile f &&
        codeFileExtensions.contains (jsToLower (extname f))) = true
    · rw [if_pos hc] at hin
      have hpr1 : pr.1 = f := by
        cases hrf : readFile f with
        | none =>
          rw [hrf] at hin
          exact absurd hin (List.not_mem_nil pr)
        | some content =>
          rw [hrf] at hin
          obtain ⟨s, _, hs⟩ := List.mem_map.mp hin
          rw [← hs]
      have hffile : f = file := by rw [← hpr1, heq]
      subst hffile
      have hns := (Bool.and_eq_true _ _ |>.mp hc).1
      rw [hskip] at hns
      simp at hns
    · rw [if_neg hc] at hin
      exact absurd hin (List.not_mem_nil pr)

/-- Witness for `lowercase_skip_no_findings` at a staged file under
`node_modules/`. -/
theorem lowercase_skip_no_findings_witness :
    skipFile "node_modules/Foo.js" = true ∧
    "node_modules/Foo.js" ∉ lowercaseFileNames ["node_modules/Foo.js"] :=
  ⟨by decide, (lowercase_skip_no_findings (fun _ => []) (fun _ => none)
    ["node_modules/Foo.js"] "node_modules/Foo.js" (by decide)).1⟩

/-- Counterexample to claim C1 as stated for arbitrary pattern lists: for
the pattern `"x "` (which trimming changes) and an absent ignore file, the
audited file contains the pattern neither as an exact trimmed line nor as
a `pattern/`-prefixed line, and a second audit appends it again. -/
theorem gitignore_audit_claim_counterexample :
    ¬((∀ p ∈ ["x "], ∃ l ∈ (gitignoreAudit ["x "] none).getD [""],
          jsTrim l = p ∨ jsStartsWith (jsTrim l) (p ++ "/") = true) ∧
      gitignoreAudit ["x "] (gitignoreAudit ["x "] none) =
        gitignoreAudit ["x "] none) := by
  decide

/-- Counterexample to claim C4: with a configuration file present whose
object omits the `gitignore` entry, the gitignore check does not run —
the wholesale-replaced config fails the `!config.gitignore` test — rather
than running with its default `enabled=true`. -/
theorem hook_config_defaults_counterexample :
    ¬(gitignoreHookRuns (some ⟨none, none, none, none⟩) = true) := by
  decide

/-- Claim C4 (amended): the built-in defaults (enabled, with enforce true
for build/gitignore and false for gitReminder) apply only when no
configuration file is loaded; a present configuration file replaces them
wholesale, so a hook whose entry is omitted is treated as disabled, and a
present entry that omits `enforce` is treated as non-enforcing. -/
theorem hook_config_defaults_amended :
    (gitignoreHookRuns none = true ∧ gitignoreHookEnforces none = true ∧
     buildHookRuns none = true ∧ buildHookEnforces none = true ∧
     reminderHookRuns none = true ∧ reminderHookEnforces none = false) ∧
    (∀ f : HooksConfig, f.gitignore = none →
      gitignoreHookRuns (some f) = false) ∧
    (∀ f : HooksConfig, f.build = none → buildHookRuns (some f) = false) ∧
    (∀ f : HooksConfig, f.gitReminder = none →
      reminderHookRuns (some f) = false) ∧
    (∀ f : HooksConfig, ∀ e : HookEntry, f.gitignore = some e →
      e.enforce = none → gitignoreHookEnforces (some f) = false) := by
  refine ⟨by decide, ?_, ?_, ?_, ?_⟩
  · intro f h
    simp [gitignoreHookRuns, loadConfig, hookDisabled, h]
  · intro f h
    simp [buildHookRuns, loadConfig, hookDisabled, h]
  · intro f h
    simp [reminderHookRuns, loadConfig, hookDisabled, h]
  · intro f e hf he
    simp [gitignoreHookEnforces, loadConfig, hookEnforces, hf, he]

/-- Witness for `hook_config_defaults_amended`: an entry present without
`enforce` leaves the gitignore check non-enforcing. -/
theorem hook_config_defaults_amended_witness :
    gitignoreHookEnforces
      (some ⟨some ⟨some true, none, none⟩, none, none, none⟩) = false :=
  hook_config_defaults_amended.2.2.2.2 ⟨some ⟨some true, none, none⟩, none,
    none, none⟩ ⟨some true, none, none⟩ rfl rfl

/-- Helper: under `sh -e`, a command list whose commands all exit 0 runs to
completion with exit 0. -/
theorem runChecks_all_zero (exitOf : HookCheck → Nat) (l : List HookCheck)
    (h : ∀ c ∈ l, exitOf c = 0) : runChecks exitOf l = (0, l) := by
  induction l with
  | nil => rfl
  | cons c rest ih =>
    unfold runChecks
    rw [if_pos (h c (by simp))]
    rw [ih (fun c' hc' => h c' (by simp [hc']))]

/-- Helper: under `sh -e`, the first failing command aborts the list with
its exit code, after the zero-exit prefix. -/
theorem runChecks_first_fail (exitOf : HookCheck → Nat)
    (pre : List HookCheck) (c : HookCheck) (post : List HookCheck)
    (hpre : ∀ c' ∈ pre, exitOf c' = 0) (hc : exitOf c ≠ 0) :
    runChecks exitOf (pre ++ c :: post) = (exitOf c, pre ++ [c]) := by
  induction pre with
  | nil =>
    rw [List.nil_append]
    unfold runChecks
    rw [if_neg hc]
    rfl
  | cons p pre' ih =>
    rw [List.cons_append]
    unfold runChecks
    rw [if_pos (hpre p (by simp))]
    rw [ih (fun c' hc' => hpre c' (by simp [hc']))]
    rfl

/-- Claim C6: the pipeline runs gitignore, lowercase, build, git-reminder
in that fixed order; when every check exits 0 all four run and the hook
exits 0; the first check with a non-zero exit stops the pipeline with
that exit code, and no later check runs. -/
theorem hook_pipeline_order (exitOf : HookCheck → Nat) :
    ((∀ c ∈ hookSequence, exitOf c = 0) →
      runPipeline exitOf = (0, hookSequence)) ∧
    (∀ pre c post, hookSequence = pre ++ c :: post →
      (∀ c' ∈ pre, exitOf c' = 0) → exitOf c ≠ 0 →
      runPipeline exitOf = (exitOf c, pre ++ [c])) := by
  constructor
  · intro h
    exact runChecks_all_zero exitOf hookSequence h
  · intro pre c post heq hpre hc
    unfold runPipeline
    rw [heq]
    exact runChecks_first_fail exitOf pre c post hpre hc

/-- Witness for `hook_pipeline_order`: with a failing build check, the
pipeline runs gitignore, lowercase, build and stops with exit 1 before
the git reminder. -/
theorem hook_pipeline_order_witness :
    runPipeline (fun c => match c with | HookCheck.build => 1 | _ => 0) =
      (1, [HookCheck.gitignore, HookCheck.lowercase, HookCheck.build]) := by
  have h := (hook_pipeline_order
      (fun c => match c with | HookCheck.build => 1 | _ => 0)).2
    [HookCheck.gitignore, HookCheck.lowercase] HookCheck.build
    [HookCheck.gitReminder] rfl (by decide) (by decide)
  simpa using h

/-- Claim C7: a failed upstream-divergence query (no upstream branch or a
network error) behaves exactly like a successful query that reports the
branch up to date: it yields no divergence finding and leaves the dirty
and staleness findings and the exit code unchanged. -/
theorem reminder_fetch_failure_silent (cf : Option HooksConfig)
    (repo : Bool) (ch : String) (lt : Option Nat) (now : Nat) :
    gitReminder ⟨cf, repo, ch, lt, now, none⟩ =
      gitReminder ⟨cf, repo, ch, lt, now, some 0⟩ ∧
    (gitReminder ⟨cf, repo, ch, lt, now, none⟩).behindBy = none := by
  constructor
  · dsimp only [gitReminder]
    split
    · rfl
    · split
      · rfl
      · split
        · rfl
        · cases lt <;> rfl
  · dsimp only [gitReminder]
    split
    · rfl
    · split
      · rfl
      · split
        · rfl
        · cases lt <;> rfl

/-- Claim C9: when no staged file has a JS/TS/Vue/Svelte extension outside
`node_modules/`, the build runner exits 0 without invoking any build,
whatever the configuration and project layout. -/
theorem build_no_js_changes_skips (env : BuildEnv)
    (h : hasJsChanges env.stagedFiles = false) :
    buildRunner env = (0, []) := by
  unfold buildRunner
  by_cases hd :
    hookDisabled (loadConfig defaultBuildHooksConfig env.configFile).build = true
  · simp [hd]
  · simp only [Bool.not_eq_true] at hd
    simp [hd, h]

/-- Witness for `build_no_js_changes_skips`: only documentation files are
staged in a project with a root build script. -/
theorem build_no_js_changes_skips_witness :
    hasJsChanges sampleDocsEnv.stagedFiles = false ∧
    buildRunner sampleDocsEnv = (0, []) :=
  ⟨by decide, build_no_js_changes_skips sampleDocsEnv (by decide)⟩

/-- Helper: a disequality in `Bool` from a refuted equality. -/
theorem bool_eq_false {b : Bool} (h : ¬(b = true)) : b = false := by
  cases b with
  | false => rfl
  | true => exact absurd rfl h

/-- Helper: lookup at a matching head. -/
theorem lookup_cons_self (a b k : String) (M : List (String × String))
    (h : (k == a) = true) : ((a, b) :: M).lookup k = some b := by
  simp [List.lookup, h]

/-- Helper: lookup skips a non-matching head. -/
theorem lookup_cons_ne (a b k : String) (M : List (String × String))
    (h : (k == a) = false) : ((a, b) :: M).lookup k = M.lookup k := by
  simp [List.lookup, h]

/-- Helper: replacing the value of an existing key makes it the looked-up
value. -/
theorem lookup_map_replace (l : List (String × String)) (k v : String)
    (h : l.any (fun kv => kv.1 == k) = true) :
    (l.map (fun kv => if kv.1 == k then (k, v) else kv)).lookup k =
      some v := by
  induction l with
  | nil => simp at h
  | cons kv rest ih =>
    obtain ⟨a, b⟩ := kv
    rw [List.map_cons]
    dsimp only
    by_cases hk : (a == k) = true
    · rw [if_pos hk]
      exact lookup_cons_self k v k _ (by simp)
    · rw [if_neg hk]
      have hk' : (a == k) = false := bool_eq_false hk
      rw [List.any_cons] at h
      dsimp only at h
      rw [hk'] at h
      have h' : rest.any (fun kv => kv.1 == k) = true := by simpa using h
      have hka : (k == a) = false :=
        beq_eq_false_iff_ne.mpr (Ne.symm (beq_eq_false_iff_ne.mp hk'))
      rw [lookup_cons_ne a b k _ hka]
      exact ih h'

/-- Helper: replacing the value of one key leaves other lookups unchanged. -/
theorem lookup_map_replace_ne (l : List (String × String)) (k v k' : String)
    (h : k' ≠ k) :
    (l.map (fun kv => if kv.1 == k then (k, v) else kv)).lookup k' =
      l.lookup k' := by
  induction l with
  | nil => rfl
  | cons kv rest ih =>
    obtain ⟨a, b⟩ := kv
    rw [List.map_cons]
    dsimp only
    have h1 : (k' == k) = false := beq_eq_false_iff_ne.mpr h
    by_cases hk : (a == k) = true
    · rw [if_pos hk]
      have hkv : a = k := by simpa using hk
      have h2 : (k' == a) = false := by rw [hkv]; exact h1
      rw [lookup_cons_ne k v k' _ h1, lookup_cons_ne a b k' _ h2]
      exact ih
    · rw [if_neg hk]
      by_cases hq : (k' == a) = true
      · rw [lookup_cons_self a b k' _ hq, lookup_cons_self a b k' _ hq]
      · have hq' : (k' == a) = false := bool_eq_false hq
        rw [lookup_cons_ne a b k' _ hq', lookup_cons_ne a b k' _ hq']
        exact ih

/-- Helper: appending a fresh key makes it the looked-up value. -/
theorem lookup_append_single (l : List (String × String)) (k v : String)
    (h : l.any (fun kv => kv.1 == k) = false) :
    (l ++ [(k, v)]).lookup k = some v := by
  induction l with
  | nil =>
    rw [List.nil_append]
    exact lookup_cons_self k v k [] (by simp)
  | cons kv rest ih =>
    obtain ⟨a, b⟩ := kv
    rw [List.cons_append]
    rw [List.any_cons] at h
    dsimp only at h
    have h1 : (a == k) = false := by
      cases hak : (a == k) with
      | false => rfl
      | true => rw [hak] at h; simp at h
    have h2 : rest.any (fun kv => kv.1 == k) = false := by
      rw [h1] at h
      simpa using h
    have hka : (k == a) = false :=
      beq_eq_false_iff_ne.mpr (Ne.symm (beq_eq_false_iff_ne.mp h1))
    rw [lookup_cons_ne a b k _ hka]
    exact ih h2

/-- Helper: appending a fresh key leaves other lookups unchanged. -/
theorem lookup_append_single_ne (l : List (String × String))
    (k v k' : String) (h : k' ≠ k) :
    (l ++ [(k, v)]).lookup k' = l.lookup k' := by
  induction l with
  | nil =>
    rw [List.nil_append]
    exact lookup_cons_ne k v k' [] (beq_eq_false_iff_ne.mpr h)
  | cons kv rest ih =>
    obtain ⟨a, b⟩ := kv
    rw [List.cons_append]
    by_cases hq : (k' == a) = true
    · rw [lookup_cons_self a b k' _ hq, lookup_cons_self a b k' _ hq]
    · have hq' : (k' == a) = false := bool_eq_false hq
      rw [lookup_cons_ne a b k' _ hq', lookup_cons_ne a b k' _ hq']
      exact ih

/-- `setScript` sets the chosen key. -/
theorem lookup_setScript_self (l : List (String × String)) (k v : String) :
    (setScript l k v).lookup k = some v := by
  unfold setScript
  by_cases h : l.any (fun kv => kv.1 == k) = true
  · rw [if_pos h]
    exact lookup_map_replace l k v h
  · rw [if_neg h]
    exact lookup_append_single l k v (bool_eq_false h)

/-- `setScript` leaves the value of every other key unchanged. -/
theorem lookup_setScript_ne (l : List (String × String)) (k v k' : String)
    (h : k' ≠ k) : (setScript l k v).lookup k' = l.lookup k' := by
  unfold setScript
  by_cases hA : l.any (fun kv => kv.1 == k) = true
  · rw [if_pos hA]
    exact lookup_map_replace_ne l k v k' h
  · rw [if_neg hA]
    exact lookup_append_single_ne l k v k' h

/-- Step 1 frame: keys other than `prepare` are untouched. -/
theorem lookup_withPrepare_ne (s : List (String × String)) (k : String)
    (h : k ≠ "prepare") : (withPrepare s).lookup k = s.lookup k :=
  lookup_setScript_ne s "prepare" "husky install" k h

/-- Step 2 frame: keys other than `build:dev` are untouched. -/
theorem lookup_withBuildDev_ne (s : List (String × String)) (k : String)
    (h : k ≠ "build:dev") : (withBuildDev s).lookup k = s.lookup k := by
  unfold withBuildDev
  split
  · rfl
  · exact lookup_setScript_ne s "build:dev" "node scripts/build-react-apps.js" k h

/-- Step 3 frame: keys other than `check-gitignore` are untouched. -/
theorem lookup_withCheckGitignore_ne (s : List (String × String))
    (k : String) (h : k ≠ "check-gitignore") :
    (withCheckGitignore s).lookup k = s.lookup k := by
  unfold withCheckGitignore
  split
  · rfl
  · exact lookup_setScript_ne s "check-gitignore"
      "node scripts/check-gitignore.js" k h

/-- Counterexample to claim C8 as stated: in a manifest whose `scripts`
mapping already has a `build:dev` entry (with the falsy value `""`), the
updater overwrites that entry even though the key is not absent. -/
theorem updatePackageJson_counterexample :
    (((⟨some [("build:dev", "")], none, []⟩ : PackageJson)).scripts.getD
        []).lookup "build:dev" = some "" ∧
    ((updatePackageJson
        ⟨some [("build:dev", "")], none, []⟩).scripts.getD
        []).lookup "build:dev" = some "node scripts/build-react-apps.js" := by
  decide

/-- Claim C8 (amended): the updater only sets `prepare` and, when their
current value is falsy (absent or empty), the `build:dev` and
`check-gitignore` scripts; every other top-level key and every other
`scripts` entry is unchanged, and a truthy `build:dev`/`check-gitignore`
value is preserved. -/
theorem updatePackageJson_spec (m : PackageJson) :
    (updatePackageJson m).rest = m.rest ∧
    (updatePackageJson m).workspaces = m.workspaces ∧
    (∀ k, k ≠ "prepare" → k ≠ "build:dev" → k ≠ "check-gitignore" →
      ((updatePackageJson m).scripts.getD []).lookup k =
        (m.scripts.getD []).lookup k) ∧
    ((updatePackageJson m).scripts.getD []).lookup "prepare" =
      some "husky install" ∧
    (∀ v, (m.scripts.getD []).lookup "build:dev" = some v → v ≠ "" →
      ((updatePackageJson m).scripts.getD []).lookup "build:dev" = some v) ∧
    (((m.scripts.getD []).lookup "build:dev").getD "" = "" →
      ((updatePackageJson m).scripts.getD []).lookup "build:dev" =
        some "node scripts/build-react-apps.js") ∧
    (∀ v, (m.scripts.getD []).lookup "check-gitignore" = some v → v ≠ "" →
      ((updatePackageJson m).scripts.getD []).lookup "check-gitignore" =
        some v) ∧
    (((m.scripts.getD []).lookup "check-gitignore").getD "" = "" →
      ((updatePackageJson m).scripts.getD []).lookup "check-gitignore" =
        some "node scripts/check-gitignore.js") := by
  obtain ⟨os, ws, rest⟩ := m
  have hS : (updatePackageJson ⟨os, ws, rest⟩).scripts.getD [] =
      withCheckGitignore (withBuildDev (withPrepare (os.getD []))) := rfl
  refine ⟨rfl, rfl, ?_, ?_, ?_, ?_, ?_, ?_⟩
  · intro k h1 h2 h3
    rw [hS, lookup_withCheckGitignore_ne _ _ h3,
      lookup_withBuildDev_ne _ _ h2, lookup_withPrepare_ne _ _ h1]
  · rw [hS, lookup_withCheckGitignore_ne _ _ (by decide),
      lookup_withBuildDev_ne _ _ (by decide)]
    exact lookup_setScript_self _ _ _
  · intro v hv hne
    have hv' : (withPrepare (os.getD [])).lookup "build:dev" = some v := by
      rw [lookup_withPrepare_ne _ _ (by decide)]
      exact hv
    rw [hS, lookup_withCheckGitignore_ne _ _ (by decide)]
    unfold withBuildDev
    rw [if_pos (by simp [hv', hne])]
    exact hv'
  · intro hfal
    have hv' : ((withPrepare (os.getD [])).lookup "build:dev").getD "" = "" := by
      rw [lookup_withPrepare_ne _ _ (by decide)]
      exact hfal
    rw [hS, lookup_withCheckGitignore_ne _ _ (by decide)]
    unfold withBuildDev
    rw [if_neg (by simp [hv'])]
    exact lookup_setScript_self _ _ _
  · intro v hv hne
    have hv' : (withBuildDev (withPrepare (os.getD []))).lookup
        "check-gitignore" = some v := by
      rw [lookup_withBuildDev_ne _ _ (by decide),
        lookup_withPrepare_ne _ _ (by decide)]
      exact hv
    rw [hS]
    unfold withCheckGitignore
    rw [if_pos (by simp [hv', hne])]
    exact hv'
  · intro hfal
    have hv' : ((withBuildDev (withPrepare (os.getD []))).lookup
        "check-gitignore").getD "" = "" := by
      rw [lookup_withBuildDev_ne _ _ (by decide),
        lookup_withPrepare_ne _ _ (by decide)]
      exact hfal
    rw [hS]
    unfold withCheckGitignore
    rw [if_neg (by simp [hv'])]
    exact lookup_setScript_self _ _ _

/-- Witness for `updatePackageJson_spec` at a manifest with an existing
unrelated script and a truthy `build:dev`. -/
theorem updatePackageJson_spec_witness :
    ((updatePackageJson
        ⟨some [("test", "jest"), ("build:dev", "custom build")], none,
          [("name", "demo")]⟩).scripts.getD []).lookup "test" =
      some "jest" ∧
    ((updatePackageJson
        ⟨some [("test", "jest"), ("build:dev", "custom build")], none,
          [("name", "demo")]⟩).scripts.getD []).lookup "build:dev" =
      some "custom build" :=
  ⟨(updatePackageJson_spec _).2.2.1 "test" (by decide) (by decide)
      (by decide) |>.trans (by decide),
   (updatePackageJson_spec _).2.2.2.2.1 "custom build" (by decide)
      (by decide)⟩

/-- Helper: the monorepo build loop with all builds succeeding runs every
selected app in order and exits 0. -/
theorem runBuildLoop_ok (buildOk : String → Bool) (enforce : Bool)
    (apps : List String) (h : ∀ d ∈ apps, buildOk d = true) :
    runBuildLoop buildOk enforce apps = (0, apps) := by
  induction apps with
  | nil => rfl
  | cons d rest ih =>
    unfold runBuildLoop
    rw [if_pos (h d (by simp))]
    rw [ih (fun d' hd' => h d' (by simp [hd']))]

/-- Claim C5: in a workspace, an app is selected for building iff its
manifest exists with a (truthy) build script and the staged files touch
it (path-prefix match or a shared/common path); selection preserves
discovery order, and when the hook is enabled, JS changes are staged, the
layout is a monorepo, and all selected builds succeed, the runner builds
exactly the selected apps in that order and exits 0. -/
theorem build_workspace_selection (env : BuildEnv) :
    (∀ d, d ∈ appsToBuild env ↔ d ∈ env.appsToCheck ∧
      ∃ m, env.manifest d = some m ∧ hasTruthyScript m "build" = true ∧
        isAffected env.stagedFiles (env.relPath d) = true) ∧
    (appsToBuild env).Sublist env.appsToCheck ∧
    (hookDisabled (loadConfig defaultBuildHooksConfig env.configFile).build =
        false →
      hasJsChanges env.stagedFiles = true →
      buildIsMonorepo env = true →
      (∀ d ∈ appsToBuild env, env.buildOk d = true) →
      buildRunner env = (0, appsToBuild env)) := by
  refine ⟨fun d => ?_, List.filter_sublist _, fun hd hjs hmono hok => ?_⟩
  · unfold appsToBuild
    rw [List.mem_filter]
    constructor
    · rintro ⟨hmem, hp⟩
      refine ⟨hmem, ?_⟩
      cases hm : env.manifest d with
      | none =>
        rw [hm] at hp
        simp at hp
      | some m =>
        rw [hm] at hp
        have hsplit := Bool.and_eq_true _ _ |>.mp hp
        exact ⟨m, rfl, hsplit.1, hsplit.2⟩
    · rintro ⟨hmem, m, hm, hb, ha⟩
      refine ⟨hmem, ?_⟩
      rw [hm]
      simp [hb, ha]
  · simp only [buildRunner, hd, hjs, hmono]
    simp only [Bool.false_eq_true, if_false, Bool.not_true, if_true]
    cases hE : (appsToBuild env).isEmpty with
    | true =>
      rw [List.isEmpty_iff] at hE
      simp [hE]
    | false =>
      simp only [Bool.false_eq_true, if_false]
      exact runBuildLoop_ok env.buildOk _ (appsToBuild env) hok

/-- Witness for `build_workspace_selection`: package `a` is touched by the
staged file `a/src/index.js`, package `b` is not, so only `a` is built. -/
theorem build_workspace_selection_witness :
    (hookDisabled
        (loadConfig defaultBuildHooksConfig
          sampleMonorepoEnv.configFile).build = false ∧
      hasJsChanges sampleMonorepoEnv.stagedFiles = true ∧
      buildIsMonorepo sampleMonorepoEnv = true ∧
      appsToBuild sampleMonorepoEnv = ["a"]) ∧
    buildRunner sampleMonorepoEnv = (0, appsToBuild sampleMonorepoEnv) :=
  ⟨⟨by decide, by decide, by decide, by decide⟩,
   (build_workspace_selection sampleMonorepoEnv).2.2 (by decide) (by decide)
     (by decide) (fun _ _ => rfl)⟩

end ReactHooks
